import Mathlib

/-!
Verification of the roku-cli command interpreter and interactive dispatcher
(`src/rokucli/cli.py`, class `RokuCLI`).

The embedding is shallow:

* Python strings are `List Char`; `str.strip`, `str.upper`, `str.lower`,
  `str.split`, `str.startswith` and slicing are modelled below on lists.
* Device operations (`self.roku.*`) are external effects.  A run records a
  trace of `Event`s (device-call attempts, sleeps, printed messages,
  terminal echoes).  Whether the n-th device call in a run raises an
  exception is given by an oracle `Nat → Bool` (`true` = the call returns
  normally, `false` = it raises).
* A `time.sleep` that returns is recorded as an event.  What `time.sleep`
  does at the duration a WAIT token parsed to — return, raise `ValueError`
  (caught by the branch's `except ValueError`), or raise `OverflowError`
  (uncaught: the process dies) — depends on IEEE-754 rounding and the
  platform clock range, so the model takes it as a second oracle
  `slp : ℚ → SleepBeh`, symmetrical to the device oracle.
* Python's builtin `float(str)` is modelled by `pyFloat` on the grammar of
  finite decimal literals with optional sign and exponent (the forms
  `inf`/`infinity`/`nan` and digit-group underscores are outside the
  modelled domain; no claim depends on them).  `pyFloat` yields the exact
  rational a literal denotes, where CPython rounds to the nearest IEEE-754
  double — saturating to infinity past about `1.8e308` and underflowing to
  a signed zero below about `5e-324`; the model therefore never lets that
  rounding decide control flow itself: the sleep oracle is consulted at
  the exact parsed value.
* Terminal writes that carry no information used by any claim (the text-entry
  prompt and the screen clean-up on leaving text entry) are elided from the
  trace; the visible character echo and the backspace erasure `"\x08 \x08"`
  are recorded because the claims talk about them.
-/

/-! ## Python string primitives -/

/-- The characters removed by Python's `str.strip()` (ASCII whitespace). -/
def isSpc (c : Char) : Bool :=
  c = ' ' || c = '\t' || c = '\n' || c = '\x0d' || c = '\x0b' || c = '\x0c'

/-- `s.strip()`: drop leading and trailing whitespace. -/
def stripL (s : List Char) : List Char :=
  List.rdropWhile isSpc (List.dropWhile isSpc s)

/-- `s.upper()` (per-character; faithful on ASCII). -/
def upperL (s : List Char) : List Char := s.map Char.toUpper

/-- `s.lower()` (per-character; faithful on ASCII). -/
def lowerL (s : List Char) : List Char := s.map Char.toLower

/-- `s.startswith(pre)` on `List Char`. -/
def startsWithL : List Char → List Char → Bool
  | [], _ => true
  | _ :: _, [] => false
  | p :: ps, c :: cs => p = c && startsWithL ps cs

/-- `s.split(sep)` for a one-character separator, Python semantics
(keeps empty fields, `"".split(sep) = [""]`). -/
def splitOnChar (sep : Char) : List Char → List (List Char)
  | [] => [[]]
  | c :: cs =>
    let r := splitOnChar sep cs
    if c = sep then [] :: r
    else
      match r with
      | h :: t => (c :: h) :: t
      | [] => [[c]]

/-- First-match association-list lookup, modelling Python `dict` lookup
(all dictionaries in `cli.py` have pairwise distinct keys). -/
def lookupA {β : Type} : List (List Char × β) → List Char → Option β
  | [], _ => none
  | (a, b) :: rest, key => if key = a then some b else lookupA rest key

/-! ## Python `float(str)` on finite decimal literals -/

def isDig (c : Char) : Bool := '0' ≤ c && c ≤ '9'

def natOfDigits : Nat → List Char → Nat
  | acc, [] => acc
  | acc, c :: cs => natOfDigits (10 * acc + (c.toNat - 48)) cs

/-- Longest leading run of decimal digits, and the rest. -/
def spanDigits (s : List Char) : List Char × List Char :=
  (s.takeWhile isDig, s.dropWhile isDig)

/-- Mantissa of a Python float literal: `digits`, `digits.digits?`, or
`.digits`; at least one digit must be present.  Returns the integer-part
digits, the fraction digits, and the rest of the stream. -/
def parseMantissa (s : List Char) : Option ((List Char × List Char) × List Char) :=
  let d := spanDigits s
  match d.2 with
  | '.' :: r2 =>
    let f := spanDigits r2
    if d.1 = [] && f.1 = [] then none else some ((d.1, f.1), f.2)
  | _ => if d.1 = [] then none else some ((d.1, []), d.2)

/-- Exponent part `[±]digits` of a Python float literal (the leading
`e`/`E` has already been consumed by the caller). -/
def parseExpTail (s : List Char) : Option (Int × List Char) :=
  match s with
  | '+' :: r =>
    let d := spanDigits r
    if d.1 = [] then none else some ((natOfDigits 0 d.1 : Int), d.2)
  | '-' :: r =>
    let d := spanDigits r
    if d.1 = [] then none else some (-(natOfDigits 0 d.1 : Int), d.2)
  | _ =>
    let d := spanDigits s
    if d.1 = [] then none else some ((natOfDigits 0 d.1 : Int), d.2)

/-- The rational `±(intdigits.fracdigits) * 10^ex` denoted by a parsed
literal, assembled with a single `mkRat` so the kernel can evaluate it. -/
def decValue (neg : Bool) (di fr : List Char) (ex : Int) : ℚ :=
  let m : Int := natOfDigits 0 (di ++ fr)
  let m : Int := if neg then -m else m
  let e : Int := ex - fr.length
  if 0 ≤ e then mkRat (m * (10 : Int) ^ e.toNat) 1
  else mkRat m ((10 : Nat) ^ (-e).toNat)

/-- Python's `float(str)` on the grammar of finite decimal literals:
surrounding whitespace, an optional sign, a mantissa and an optional
exponent.  Returns `none` exactly when CPython raises `ValueError`
(the special forms `inf`/`infinity`/`nan` and digit-group underscores are
outside the modelled domain).  The returned value is the exact rational
the literal denotes; CPython rounds it to the nearest IEEE-754 double,
saturating huge literals to infinity and tiny ones to a signed zero —
which is why the run model consults the sleep oracle at this exact value
instead of classifying it itself. -/
def pyFloat (s : List Char) : Option ℚ :=
  let s1 := stripL s
  let sgn : Bool × List Char :=
    match s1 with
    | '+' :: r => (false, r)
    | '-' :: r => (true, r)
    | _ => (false, s1)
  match parseMantissa sgn.2 with
  | none => none
  | some (m, r) =>
    match r with
    | [] => some (decValue sgn.1 m.1 m.2 0)
    | 'e' :: r2 =>
      match parseExpTail r2 with
      | some (e, r3) => if r3 = [] then some (decValue sgn.1 m.1 m.2 e) else none
      | none => none
    | 'E' :: r2 =>
      match parseExpTail r2 with
      | some (e, r3) => if r3 = [] then some (decValue sgn.1 m.1 m.2 e) else none
      | none => none
    | _ => none

/-! ## Device operations and run events -/

/-- The device-control surface used by `cli.py` (`self.roku.*`).
`pause` is dispatched to `play` and script `enter` to `select` in the
tables below, exactly as in the source. -/
inductive DevOp
  | power | back | home | left | down | up | right | replay | info
  | reverse | forward | play | volumeUp | volumeDown | volumeMute
  | select | enter | backspace
  | literal (c : Char)
  deriving DecidableEq, Repr

/-- One observable step of a run: a device-call attempt (recorded whether or
not the call raises), a `time.sleep`, a printed message, or a terminal echo
in text-entry mode. -/
inductive Event
  | call (op : DevOp)
  | sleep (d : ℚ)
  | msg (s : List Char)
  | echo (s : List Char)
  deriving DecidableEq, Repr

/-- The device calls occurring in a trace, in order. -/
def callsOf (tr : List Event) : List DevOp :=
  tr.filterMap fun e => match e with | Event.call o => some o | _ => none

/-- The printed messages occurring in a trace, in order. -/
def msgsOf (tr : List Event) : List (List Char) :=
  tr.filterMap fun e => match e with | Event.msg s => some s | _ => none

/-! ## Script mode: `execute_command`, `execute_text`,
`parse_and_execute_commands` -/

/-- The `cmd_func_map` dictionary of `RokuCLI.execute_command`. -/
def cmd_func_map_list : List (List Char × DevOp) :=
  [("power".toList, DevOp.power), ("back".toList, DevOp.back),
   ("home".toList, DevOp.home), ("left".toList, DevOp.left),
   ("down".toList, DevOp.down), ("up".toList, DevOp.up),
   ("right".toList, DevOp.right), ("replay".toList, DevOp.replay),
   ("info".toList, DevOp.info), ("reverse".toList, DevOp.reverse),
   ("forward".toList, DevOp.forward), ("play".toList, DevOp.play),
   ("pause".toList, DevOp.play), ("volume-up".toList, DevOp.volumeUp),
   ("volume-down".toList, DevOp.volumeDown), ("mute".toList, DevOp.volumeMute),
   ("select".toList, DevOp.select), ("enter".toList, DevOp.select)]

def textTag : List Char := "TEXT:".toList

def waitTag : List Char := "WAIT:".toList

def failedCmdMsg (cmd : List Char) : List Char :=
  "Failed to execute command: ".toList ++ cmd

def failedTextMsg (text : List Char) : List Char :=
  "Failed to input text: ".toList ++ text

def invalidWaitMsg (cmd : List Char) : List Char :=
  "Invalid wait command: ".toList ++ cmd

/-- The symbolic-command operation bound to a script token: lower-case the
token and look it up in `cmd_func_map_list`. -/
def scriptOp (t : List Char) : Option DevOp :=
  lookupA cmd_func_map_list (lowerL t)

/-- `RokuCLI.execute_command` (cli.py lines 62-95).  `oracle k` tells whether
the `k`-th device call of the run returns normally; the result is the
returned boolean, the next call index, and the events of this call. -/
def execute_command (oracle : Nat → Bool) (k : Nat) (cmd0 : List Char) :
    Bool × Nat × List Event :=
  let cmd := if !(startsWithL textTag cmd0 || startsWithL waitTag cmd0)
             then lowerL cmd0 else cmd0
  match lookupA cmd_func_map_list cmd with
  | some op =>
    if oracle k then (true, k + 1, [Event.call op])
    else (false, k + 1, [Event.call op, Event.msg (failedCmdMsg cmd)])
  | none => (false, k, [])

/-- The `for char in text: self.roku.literal(char)` loop of
`RokuCLI.execute_text`; the boolean is `false` when a call raised. -/
def sendLiterals (oracle : Nat → Bool) (k : Nat) :
    List Char → Bool × Nat × List Event
  | [] => (true, k, [])
  | c :: cs =>
    if oracle k then
      let r := sendLiterals oracle (k + 1) cs
      (r.1, r.2.1, Event.call (DevOp.literal c) :: r.2.2)
    else (false, k + 1, [Event.call (DevOp.literal c)])

/-- `RokuCLI.execute_text` (cli.py lines 97-106): send each character of
`text` as a literal key-press, then one `enter`; any raising call is caught
and turned into `False` plus a printed message. -/
def execute_text (oracle : Nat → Bool) (k : Nat) (text : List Char) :
    Bool × Nat × List Event :=
  let r := sendLiterals oracle k text
  if r.1 then
    if oracle r.2.1 then (true, r.2.1 + 1, r.2.2 ++ [Event.call DevOp.enter])
    else (false, r.2.1 + 1,
          r.2.2 ++ [Event.call DevOp.enter, Event.msg (failedTextMsg text)])
  else (false, r.2.1, r.2.2 ++ [Event.msg (failedTextMsg text)])

/-- `cmd.split(':')[1]` in the WAIT branch (the stream between the first and
second colon).  A WAIT-prefixed token always contains a colon, so index 1
exists; the default is unreachable. -/
def waitArg (cmd : List Char) : List Char :=
  (splitOnChar ':' cmd).getD 1 []

/-- What `time.sleep` does when called with the duration a WAIT token
parsed to.  In CPython 3.11: it returns normally for every non-negative
in-range duration and for the negative zero that literals below about
`-5e-324` underflow to; it raises `ValueError` (caught by the WAIT
handler's `except ValueError`) for every strictly negative duration and
for NaN; and it raises `OverflowError` — which `except ValueError` does
not catch, so the process dies with a traceback — for every duration
whose nanosecond count exceeds the signed 64-bit range (about `9.22e9`
seconds and beyond, including the infinities that literals past about
`1.8e308` saturate to). -/
inductive SleepBeh
  | returns
  | valueError
  | uncaught
  deriving DecidableEq, Repr

/-- How a script run ends: `parse_and_execute_commands` returns the given
boolean, or an exception nobody catches propagates out of it and the
process dies with a traceback. -/
inductive ScriptOut
  | ok (success : Bool)
  | crash
  deriving DecidableEq, Repr

/-- Because the classification of `time.sleep` at a given duration depends
on IEEE-754 rounding of the literal and on the platform clock range, the
model takes it as an oracle `slp : ℚ → SleepBeh`, exactly as device calls
are taken as an oracle `Nat → Bool`; theorems assume the behavior at the
durations they mention.  `slpStd` is the concrete instance used by the
witnesses: accurate at every duration they use (far from the rounding
boundaries), it returns for `[0, 9e9)`, raises `ValueError` below `0` and
`OverflowError` from `9e9` on. -/
def slpStd (d : ℚ) : SleepBeh :=
  if d < 0 then SleepBeh.valueError
  else if d < 9000000000 then SleepBeh.returns
  else SleepBeh.uncaught

/-- The token loop of `RokuCLI.parse_and_execute_commands`
(cli.py lines 113-143), over the already split-and-stripped token list.

The WAIT branch is `try: delay = float(cmd.split(':')[1]);
time.sleep(delay) ... except ValueError`: a failed `float` raises
`ValueError`, caught and reported as an invalid wait; a parsed duration is
handed to `time.sleep`, whose outcome the `slp` oracle gives — a normal
return records the sleep and continues, a `ValueError` is caught and
reported by the same handler, and any other exception (`OverflowError`)
is uncaught and crashes the run with nothing printed by this code.  The
fixed `time.sleep(0.1)` after a successful ordinary command is recorded
directly: its argument is the program's own constant, positive and far
below the overflow range, so that call cannot raise. -/
def peGo (oracle : Nat → Bool) (slp : ℚ → SleepBeh) :
    List (List Char) → Nat → ScriptOut × List Event
  | [], _ => (ScriptOut.ok true, [])
  | t :: rest, k =>
    if t = [] then peGo oracle slp rest k
    else
      let cmd := stripL t
      if startsWithL waitTag (upperL cmd) then
        match pyFloat (waitArg cmd) with
        | some d =>
          match slp d with
          | SleepBeh.returns =>
            let r := peGo oracle slp rest k
            (r.1, Event.sleep d :: r.2)
          | SleepBeh.valueError =>
            (ScriptOut.ok false, [Event.msg (invalidWaitMsg cmd)])
          | SleepBeh.uncaught => (ScriptOut.crash, [])
        | none => (ScriptOut.ok false, [Event.msg (invalidWaitMsg cmd)])
      else if startsWithL textTag (upperL cmd) then
        let e := execute_text oracle k (cmd.drop 5)
        if e.1 then
          let r := peGo oracle slp rest e.2.1
          (r.1, e.2.2 ++ r.2)
        else (ScriptOut.ok false, e.2.2)
      else
        let e := execute_command oracle k cmd
        if e.1 then
          let r := peGo oracle slp rest e.2.1
          (r.1, e.2.2 ++ Event.sleep (mkRat 1 10) :: r.2)
        else (ScriptOut.ok false, e.2.2)

/-- `RokuCLI.parse_and_execute_commands` (cli.py lines 108-143): split the
script on commas, strip each token, then run the token loop. -/
def parse_and_execute (oracle : Nat → Bool) (slp : ℚ → SleepBeh)
    (s : List Char) : ScriptOut × List Event :=
  peGo oracle slp ((splitOnChar ',' s).map stripL) 0

/-- The script tokens of a command string, as the code computes them:
`[cmd.strip() for cmd in command_string.split(',')]`. -/
def tokensOf (s : List Char) : List (List Char) :=
  (splitOnChar ',' s).map stripL

/-- Script mode in `RokuCLI.run` (cli.py lines 208-210):
`sys.exit(0 if success else 1)`.  `none` when the run crashed on an
uncaught exception: these lines are then never reached (CPython itself
exits with a traceback, outside the modelled code). -/
def scriptModeExit (oracle : Nat → Bool) (slp : ℚ → SleepBeh)
    (s : List Char) : Option Nat :=
  match (parse_and_execute oracle slp s).1 with
  | ScriptOut.ok true => some 0
  | ScriptOut.ok false => some 1
  | ScriptOut.crash => none

example : parse_and_execute (fun _ => true) slpStd "home, down".toList =
    (ScriptOut.ok true, [Event.call DevOp.home, Event.sleep (mkRat 1 10),
            Event.call DevOp.down, Event.sleep (mkRat 1 10)]) := by decide

example : parse_and_execute (fun _ => true) slpStd "WAIT:1:5".toList =
    (ScriptOut.ok true, [Event.sleep 1]) := by decide

example : pyFloat "1:5".toList = none := by decide

example : pyFloat "0.5".toList = some (mkRat 1 2) := by decide

example : pyFloat " -2e1 ".toList = some (-20) := by decide

example : parse_and_execute (fun _ => true) slpStd "WAIT:abc".toList =
    (ScriptOut.ok false, [Event.msg (invalidWaitMsg "WAIT:abc".toList)]) := by
  decide

example : parse_and_execute (fun _ => true) slpStd "WAIT:9999999999,home".toList =
    (ScriptOut.crash, []) := by decide

example : parse_and_execute (fun _ => true) slpStd "tExT:Hi".toList =
    (ScriptOut.ok true,
     [Event.call (DevOp.literal 'H'), Event.call (DevOp.literal 'i'),
      Event.call DevOp.enter]) := by decide

example : parse_and_execute (fun _ => true) slpStd "home,down,unknowncmd,up".toList =
    (ScriptOut.ok false, [Event.call DevOp.home, Event.sleep (mkRat 1 10),
             Event.call DevOp.down, Event.sleep (mkRat 1 10)]) := by decide

example : scriptModeExit (fun _ => true) slpStd
    "home,down,unknowncmd,up".toList = some 1 := by decide

/-! ## Interactive mode: the key-dispatch loop of `RokuCLI.run` and the
text-entry sub-mode `RokuCLI.text_entry`

A key event is what `term.inkey()` yields: an ordinary character, or a named
special-key sequence (for which the code replaces the value by `val.name`).
The whole interactive session is one pass over the list of key events,
with a mode distinguishing the top-level loop from the nested text-entry
loop.  `text_entry` holds the terminal's current column when it starts
(`self.term.get_location()[1]`); that number enters the model as the `sc`
parameter of `iRun`. -/

/-- One decoded key event from the terminal. -/
inductive Key
  | ch (c : Char)
  | seq (name : List Char)
  deriving DecidableEq, Repr

/-- The string the loop dispatches on: the character itself, or
`val.name` for a sequence. -/
def normKey : Key → List Char
  | Key.ch c => [c]
  | Key.seq n => n

/-- An entry of the interactive `cmd_func_map`: a bound device operation, or
`self.text_entry` (bound to `'/'`). -/
inductive IAct
  | op (o : DevOp)
  | textMode
  deriving DecidableEq, Repr

/-- The interactive `cmd_func_map` built in `RokuCLI.run`
(cli.py lines 220-244): the base table, plus the three volume bindings
that are added exactly when the device reports type `"TV"`. -/
def interactive_map (is_tv : Bool) : List (List Char × IAct) :=
  [("p".toList, IAct.op DevOp.power), ("B".toList, IAct.op DevOp.back),
   ("KEY_ESCAPE".toList, IAct.op DevOp.back), ("H".toList, IAct.op DevOp.home),
   ("h".toList, IAct.op DevOp.left), ("KEY_LEFT".toList, IAct.op DevOp.left),
   ("j".toList, IAct.op DevOp.down), ("KEY_DOWN".toList, IAct.op DevOp.down),
   ("k".toList, IAct.op DevOp.up), ("KEY_UP".toList, IAct.op DevOp.up),
   ("l".toList, IAct.op DevOp.right), ("KEY_RIGHT".toList, IAct.op DevOp.right),
   ("KEY_ENTER".toList, IAct.op DevOp.select), ("R".toList, IAct.op DevOp.replay),
   ("i".toList, IAct.op DevOp.info), ("r".toList, IAct.op DevOp.reverse),
   ("f".toList, IAct.op DevOp.forward), (" ".toList, IAct.op DevOp.play),
   ("/".toList, IAct.textMode)] ++
  (if is_tv then
    [("V".toList, IAct.op DevOp.volumeUp), ("v".toList, IAct.op DevOp.volumeDown),
     ("M".toList, IAct.op DevOp.volumeMute)]
   else [])

/-- The `allowed_sequences` set of `RokuCLI.text_entry`. -/
def allowedSeqs : List (List Char) :=
  ["KEY_ENTER".toList, "KEY_ESCAPE".toList, "KEY_DELETE".toList,
   "KEY_BACKSPACE".toList]

/-- The connectivity message printed by the interactive loop's handler:
`'Unable to communicate with roku at ' + host + ':' + port`. -/
def connMsg (host port : List Char) : List Char :=
  "Unable to communicate with roku at ".toList ++ host ++ ':' :: port

/-- The `'\b \b'` written to erase one echoed character. -/
def bsEcho : List Char := ['\x08', ' ', '\x08']

/-- How the interactive session ends: the quit key was seen, `sys.exit`
was called with the given status, or the supplied key events ran out while
the loop was still blocked on `inkey()`. -/
inductive ILOut
  | quit
  | exited (code : Nat)
  | exhausted
  deriving DecidableEq, Repr

/-- Where control sits between two key events: the top-level dispatch loop,
or the text-entry sub-mode with its recorded starting column, current
column, and whether the key that opened the sub-mode quits the outer loop
once the sub-mode returns (in the program that key is `'/'`, which does
not). -/
inductive IMode
  | top
  | text (startCol col : Nat) (quitAfter : Bool)
  deriving DecidableEq, Repr

/-- The interactive session of `RokuCLI.run` (cli.py lines 246-261)
together with the nested `RokuCLI.text_entry` loop (lines 145-192), as one
pass over the key events.

Top mode, per key: normalise the key, look it up in the table; on a bound
operation attempt the call inside `try:`, and on an exception print the
connectivity message and `sys.exit(1)`; on `self.text_entry` switch to text
mode.  After dispatching, the `while val.lower() != 'q'` condition decides
whether to read another key.

Text mode, per key: disallowed sequences are skipped; `KEY_ENTER` sends the
device's enter and leaves the sub-mode; `KEY_ESCAPE` leaves it silently;
`KEY_DELETE`/`KEY_BACKSPACE` send backspace and erase one echoed character
exactly when the column is still right of the start column; any other
character is sent as a literal and echoed.  `text_entry` has no handler of
its own, so a raising device call propagates to the top loop's `except:`,
which prints the connectivity message and exits with status 1. -/
def iRun (oracle : Nat → Bool) (host port : List Char)
    (tbl : List (List Char × IAct)) (sc : Nat) :
    IMode → Nat → List Key → List Event × ILOut
  | _, _, [] => ([], ILOut.exhausted)
  | IMode.top, k, key :: rest =>
    let val := normKey key
    match lookupA tbl val with
    | none =>
      if lowerL val = ['q'] then ([], ILOut.quit)
      else iRun oracle host port tbl sc IMode.top k rest
    | some (IAct.op o) =>
      if oracle k then
        if lowerL val = ['q'] then ([Event.call o], ILOut.quit)
        else
          let r := iRun oracle host port tbl sc IMode.top (k + 1) rest
          (Event.call o :: r.1, r.2)
      else ([Event.call o, Event.msg (connMsg host port)], ILOut.exited 1)
    | some IAct.textMode =>
      iRun oracle host port tbl sc (IMode.text sc sc (lowerL val = ['q'])) k rest
  | IMode.text scol col qa, k, key :: rest =>
    match key with
    | Key.seq n =>
      if n ∈ allowedSeqs then
        if n = "KEY_ENTER".toList then
          if oracle k then
            let r := if qa then (([] : List Event), ILOut.quit)
                     else iRun oracle host port tbl sc IMode.top (k + 1) rest
            (Event.call DevOp.enter :: r.1, r.2)
          else ([Event.call DevOp.enter, Event.msg (connMsg host port)],
                ILOut.exited 1)
        else if n = "KEY_ESCAPE".toList then
          if qa then ([], ILOut.quit)
          else iRun oracle host port tbl sc IMode.top k rest
        else
          if oracle k then
            if scol < col then
              let r := iRun oracle host port tbl sc
                         (IMode.text scol (col - 1) qa) (k + 1) rest
              (Event.call DevOp.backspace :: Event.echo bsEcho :: r.1, r.2)
            else
              let r := iRun oracle host port tbl sc
                         (IMode.text scol col qa) (k + 1) rest
              (Event.call DevOp.backspace :: r.1, r.2)
          else ([Event.call DevOp.backspace, Event.msg (connMsg host port)],
                ILOut.exited 1)
      else iRun oracle host port tbl sc (IMode.text scol col qa) k rest
    | Key.ch c =>
      if oracle k then
        let r := iRun oracle host port tbl sc
                   (IMode.text scol (col + 1) qa) (k + 1) rest
        (Event.call (DevOp.literal c) :: Event.echo [c] :: r.1, r.2)
      else ([Event.call (DevOp.literal c), Event.msg (connMsg host port)],
            ILOut.exited 1)

example : iRun (fun _ => true) "h".toList "p".toList (interactive_map false) 0
    IMode.top 0 [Key.ch 'H', Key.ch 'q'] =
    ([Event.call DevOp.home], ILOut.quit) := by decide

example : iRun (fun _ => true) "h".toList "p".toList (interactive_map false) 0
    IMode.top 0 [Key.ch 'V', Key.ch 'Q'] = ([], ILOut.quit) := by decide

example : iRun (fun _ => true) "h".toList "p".toList (interactive_map true) 0
    IMode.top 0 [Key.ch 'V', Key.ch 'q'] =
    ([Event.call DevOp.volumeUp], ILOut.quit) := by decide

example : iRun (fun _ => false) "h".toList "p".toList (interactive_map false) 0
    IMode.top 0 [Key.ch 'H'] =
    ([Event.call DevOp.home, Event.msg (connMsg "h".toList "p".toList)],
     ILOut.exited 1) := by decide

example : iRun (fun _ => true) "h".toList "p".toList (interactive_map false) 3
    IMode.top 0 [Key.ch '/', Key.ch 'a', Key.seq "KEY_BACKSPACE".toList,
                 Key.seq "KEY_UP".toList, Key.seq "KEY_ENTER".toList,
                 Key.ch 'q'] =
    ([Event.call (DevOp.literal 'a'), Event.echo ['a'],
      Event.call DevOp.backspace, Event.echo bsEcho,
      Event.call DevOp.enter], ILOut.quit) := by decide

example : iRun (fun _ => false) "h".toList "p".toList (interactive_map false) 3
    IMode.top 0 [Key.ch '/', Key.ch 'a'] =
    ([Event.call (DevOp.literal 'a'), Event.msg (connMsg "h".toList "p".toList)],
     ILOut.exited 1) := by decide

example : iRun (fun _ => true) "h".toList "p".toList (interactive_map false) 3
    IMode.top 0 [Key.ch '/', Key.seq "KEY_BACKSPACE".toList,
                 Key.seq "KEY_ESCAPE".toList, Key.ch 'q'] =
    ([Event.call DevOp.backspace], ILOut.quit) := by decide

/-! ## Utility lemmas about the string primitives -/

theorem char_toNat_ofNat {n : Nat} (h : n < 55296) : (Char.ofNat n).toNat = n := by
  rw [Char.ofNat]
  have hv : n.isValidChar := Or.inl h
  rw [dif_pos hv]
  rfl

/-- Upper-casing is insensitive to prior lower-casing (for the ASCII-only
`Char.toLower`/`Char.toUpper`, on every scalar value). -/
theorem toUpper_toLower (c : Char) : (Char.toLower c).toUpper = c.toUpper := by
  unfold Char.toLower Char.toUpper
  by_cases h : c.toNat ≥ 65 ∧ c.toNat ≤ 90
  · rw [if_pos h]
    have h1 : (Char.ofNat (c.toNat + 32)).toNat = c.toNat + 32 :=
      char_toNat_ofNat (by omega)
    rw [h1]
    rw [if_pos (by omega)]
    rw [if_neg (by omega)]
    have h2 : c.toNat + 32 - 32 = c.toNat := by omega
    rw [h2, Char.ofNat_toNat]
  · rw [if_neg h]

theorem upperL_lowerL (s : List Char) : upperL (lowerL s) = upperL s := by
  unfold upperL lowerL
  rw [List.map_map]
  apply List.map_congr_left
  intro a _
  exact toUpper_toLower a

theorem dropWhile_stripL (s : List Char) :
    List.dropWhile isSpc (stripL s) = stripL s := by
  rw [List.dropWhile_eq_self_iff]
  intro hl
  have hpre : stripL s <+: List.dropWhile isSpc s := List.rdropWhile_prefix _ _
  have h0 : (0 : Nat) < (List.dropWhile isSpc s).length :=
    lt_of_lt_of_le hl hpre.length_le
  have h2 := List.dropWhile_get_zero_not isSpc s h0
  simp only [List.get_eq_getElem] at h2 ⊢
  rw [hpre.getElem (by simpa using hl)]
  exact h2

theorem stripL_idem (s : List Char) : stripL (stripL s) = stripL s := by
  show List.rdropWhile isSpc (List.dropWhile isSpc (stripL s)) = stripL s
  rw [dropWhile_stripL]
  show List.rdropWhile isSpc (List.rdropWhile isSpc (List.dropWhile isSpc s)) = _
  rw [List.rdropWhile_idempotent]
  rfl

theorem startsWithL_upper (p s : List Char) (h : startsWithL p s = true) :
    startsWithL (upperL p) (upperL s) = true := by
  induction p generalizing s with
  | nil => simp [startsWithL, upperL]
  | cons a p ih =>
    cases s with
    | nil => simp [startsWithL] at h
    | cons b s =>
      simp only [startsWithL, Bool.and_eq_true, decide_eq_true_eq] at h
      simp only [upperL, List.map_cons, startsWithL, Bool.and_eq_true,
                 decide_eq_true_eq]
      exact ⟨by rw [h.1], ih s h.2⟩

theorem lookupA_mem_keys {β : Type} (l : List (List Char × β)) (key : List Char)
    (v : β) (h : lookupA l key = some v) : key ∈ l.map Prod.fst := by
  induction l with
  | nil => simp [lookupA] at h
  | cons p rest ih =>
    obtain ⟨a, b⟩ := p
    simp only [lookupA] at h
    by_cases hk : key = a
    · rw [List.map_cons]
      exact hk ▸ List.mem_cons_self _ _
    · rw [if_neg hk] at h
      rw [List.map_cons]
      exact List.mem_cons_of_mem _ (ih h)

/-! ## Behaviour of the token loop, branch by branch -/

theorem peGo_cons_empty (o : Nat → Bool) (slp : ℚ → SleepBeh) (t : List Char)
    (ts : List (List Char)) (k : Nat) (h : t = []) :
    peGo o slp (t :: ts) k = peGo o slp ts k := by
  simp only [peGo, h, if_pos]

theorem peGo_cons_wait_ok (o : Nat → Bool) (slp : ℚ → SleepBeh) (t : List Char)
    (ts : List (List Char)) (k : Nat) (d : ℚ)
    (hW : startsWithL waitTag (upperL (stripL t)) = true)
    (hd : pyFloat (waitArg (stripL t)) = some d)
    (h0 : slp d = SleepBeh.returns) :
    peGo o slp (t :: ts) k =
      ((peGo o slp ts k).1, Event.sleep d :: (peGo o slp ts k).2) := by
  have hne : t ≠ [] := by
    intro he
    rw [he] at hW
    exact absurd hW (by decide)
  simp only [peGo, hne, hW, hd, h0, if_false, if_true, ite_true, ite_false]

theorem peGo_cons_wait_none (o : Nat → Bool) (slp : ℚ → SleepBeh)
    (t : List Char) (ts : List (List Char)) (k : Nat)
    (hW : startsWithL waitTag (upperL (stripL t)) = true)
    (hd : pyFloat (waitArg (stripL t)) = none) :
    peGo o slp (t :: ts) k =
      (ScriptOut.ok false, [Event.msg (invalidWaitMsg (stripL t))]) := by
  have hne : t ≠ [] := by
    intro he
    rw [he] at hW
    exact absurd hW (by decide)
  simp only [peGo, hne, hW, hd, if_false, if_true, ite_true, ite_false]

theorem peGo_cons_wait_valueerror (o : Nat → Bool) (slp : ℚ → SleepBeh)
    (t : List Char) (ts : List (List Char)) (k : Nat) (d : ℚ)
    (hW : startsWithL waitTag (upperL (stripL t)) = true)
    (hd : pyFloat (waitArg (stripL t)) = some d)
    (h0 : slp d = SleepBeh.valueError) :
    peGo o slp (t :: ts) k =
      (ScriptOut.ok false, [Event.msg (invalidWaitMsg (stripL t))]) := by
  have hne : t ≠ [] := by
    intro he
    rw [he] at hW
    exact absurd hW (by decide)
  simp only [peGo, hne, hW, hd, h0, if_false, if_true, ite_true, ite_false]

theorem peGo_cons_wait_uncaught (o : Nat → Bool) (slp : ℚ → SleepBeh)
    (t : List Char) (ts : List (List Char)) (k : Nat) (d : ℚ)
    (hW : startsWithL waitTag (upperL (stripL t)) = true)
    (hd : pyFloat (waitArg (stripL t)) = some d)
    (h0 : slp d = SleepBeh.uncaught) :
    peGo o slp (t :: ts) k = (ScriptOut.crash, []) := by
  have hne : t ≠ [] := by
    intro he
    rw [he] at hW
    exact absurd hW (by decide)
  simp only [peGo, hne, hW, hd, h0, if_false, if_true, ite_true, ite_false]

theorem peGo_cons_text (o : Nat → Bool) (slp : ℚ → SleepBeh) (t : List Char)
    (ts : List (List Char)) (k : Nat)
    (hW : startsWithL waitTag (upperL (stripL t)) = false)
    (hX : startsWithL textTag (upperL (stripL t)) = true) :
    peGo o slp (t :: ts) k =
      (if (execute_text o k ((stripL t).drop 5)).1 then
        ((peGo o slp ts (execute_text o k ((stripL t).drop 5)).2.1).1,
         (execute_text o k ((stripL t).drop 5)).2.2 ++
           (peGo o slp ts (execute_text o k ((stripL t).drop 5)).2.1).2)
      else (ScriptOut.ok false, (execute_text o k ((stripL t).drop 5)).2.2)) := by
  have hne : t ≠ [] := by
    intro he
    rw [he] at hX
    exact absurd hX (by decide)
  simp only [peGo, hne, hW, hX, if_false, if_true, ite_true, ite_false,
             Bool.false_eq_true]

theorem peGo_cons_ord (o : Nat → Bool) (slp : ℚ → SleepBeh) (t : List Char)
    (ts : List (List Char)) (k : Nat)
    (hne : t ≠ [])
    (hW : startsWithL waitTag (upperL (stripL t)) = false)
    (hX : startsWithL textTag (upperL (stripL t)) = false) :
    peGo o slp (t :: ts) k =
      (if (execute_command o k (stripL t)).1 then
        ((peGo o slp ts (execute_command o k (stripL t)).2.1).1,
         (execute_command o k (stripL t)).2.2 ++
           Event.sleep (mkRat 1 10) ::
             (peGo o slp ts (execute_command o k (stripL t)).2.1).2)
      else (ScriptOut.ok false, (execute_command o k (stripL t)).2.2)) := by
  simp only [peGo, hne, hW, hX, if_false, if_true, ite_true, ite_false,
             Bool.false_eq_true]

/-! ## Known symbolic commands and `execute_command` -/

theorem not_wait_cs (c : List Char)
    (h : startsWithL waitTag (upperL c) = false) :
    startsWithL waitTag c = false := by
  by_contra hc
  rw [Bool.not_eq_false] at hc
  have h2 := startsWithL_upper waitTag c hc
  have h3 : upperL waitTag = waitTag := by decide
  rw [h3, h] at h2
  exact Bool.false_ne_true h2

theorem not_text_cs (c : List Char)
    (h : startsWithL textTag (upperL c) = false) :
    startsWithL textTag c = false := by
  by_contra hc
  rw [Bool.not_eq_false] at hc
  have h2 := startsWithL_upper textTag c hc
  have h3 : upperL textTag = textTag := by decide
  rw [h3, h] at h2
  exact Bool.false_ne_true h2

/-- A token that lower-cases to a key of `cmd_func_map` cannot carry a
`WAIT:` or `TEXT:` directive marker (case-insensitively). -/
theorem scriptOp_not_directive (c : List Char) (h : (scriptOp c).isSome = true) :
    startsWithL waitTag (upperL c) = false ∧
    startsWithL textTag (upperL c) = false := by
  obtain ⟨v, hv⟩ := Option.isSome_iff_exists.mp h
  have hm := lookupA_mem_keys _ _ _ hv
  have hup : upperL c = upperL (lowerL c) := (upperL_lowerL c).symm
  rw [hup]
  simp only [cmd_func_map_list, List.map_cons, List.map_nil, List.mem_cons,
             List.not_mem_nil, or_false] at hm
  rcases hm with h1 | h1 | h1 | h1 | h1 | h1 | h1 | h1 | h1 | h1 | h1 | h1 |
    h1 | h1 | h1 | h1 | h1 | h1 <;> rw [h1] <;> exact ⟨by decide, by decide⟩

theorem execute_command_known (o : Nat → Bool) (k : Nat) (c : List Char)
    (op : DevOp) (h : scriptOp c = some op)
    (hW : startsWithL waitTag (upperL c) = false)
    (hX : startsWithL textTag (upperL c) = false) :
    execute_command o k c =
      if o k then (true, k + 1, [Event.call op])
      else (false, k + 1,
            [Event.call op, Event.msg (failedCmdMsg (lowerL c))]) := by
  have hcw : startsWithL waitTag c = false := not_wait_cs c hW
  have hcx : startsWithL textTag c = false := not_text_cs c hX
  unfold execute_command
  rw [hcx, hcw]
  simp only [Bool.or_self, Bool.not_false, if_true, ite_true]
  rw [show lookupA cmd_func_map_list (lowerL c) = some op from h]

/-- An unknown ordinary token: `execute_command` returns `False` silently
(no device call, no message). -/
theorem execute_command_unknown (o : Nat → Bool) (k : Nat) (c : List Char)
    (h : scriptOp c = none)
    (hW : startsWithL waitTag (upperL c) = false)
    (hX : startsWithL textTag (upperL c) = false) :
    execute_command o k c = (false, k, []) := by
  have hcw : startsWithL waitTag c = false := not_wait_cs c hW
  have hcx : startsWithL textTag c = false := not_text_cs c hX
  unfold execute_command
  rw [hcx, hcw]
  simp only [Bool.or_self, Bool.not_false, if_true, ite_true]
  rw [show lookupA cmd_func_map_list (lowerL c) = none from h]

/-! ## `execute_text` -/

theorem sendLiterals_success (o : Nat → Bool) (text : List Char) :
    ∀ k : Nat, (∀ j, j < text.length → o (k + j) = true) →
    sendLiterals o k text =
      (true, k + text.length,
       text.map fun c => Event.call (DevOp.literal c)) := by
  induction text with
  | nil => intro k _; simp [sendLiterals]
  | cons c cs ih =>
    intro k h
    have h0 : o k = true := by simpa using h 0 (by simp)
    have h1 : ∀ j, j < cs.length → o (k + 1 + j) = true := by
      intro j hj
      have h2 := h (j + 1) (by simpa using Nat.succ_lt_succ hj)
      have h3 : k + (j + 1) = k + 1 + j := by omega
      rwa [h3] at h2
    have h4 : k + 1 + cs.length = k + (cs.length + 1) := by omega
    simp [sendLiterals, h0, ih (k + 1) h1, h4]

theorem sendLiterals_ok (o : Nat → Bool) (text : List Char) :
    ∀ k : Nat, (sendLiterals o k text).1 = true →
    (∀ j, j < text.length → o (k + j) = true) ∧
    (sendLiterals o k text).2.1 = k + text.length := by
  induction text with
  | nil => intro k _; simp [sendLiterals]
  | cons c cs ih =>
    intro k h
    by_cases h0 : o k = true
    · simp only [sendLiterals, h0, if_true, ite_true] at h ⊢
      obtain ⟨ha, hb⟩ := ih (k + 1) h
      constructor
      · intro j hj
        rw [List.length_cons] at hj
        cases j with
        | zero => simpa using h0
        | succ j =>
          have h2 := ha j (by omega)
          have h3 : k + (j + 1) = k + 1 + j := by omega
          rwa [h3]
      · rw [hb, List.length_cons]; omega
    · rw [Bool.not_eq_true] at h0
      simp [sendLiterals, h0] at h

theorem execute_text_success (o : Nat → Bool) (k : Nat) (text : List Char)
    (h : ∀ j, j ≤ text.length → o (k + j) = true) :
    execute_text o k text =
      (true, k + text.length + 1,
       (text.map fun c => Event.call (DevOp.literal c)) ++
         [Event.call DevOp.enter]) := by
  have hs := sendLiterals_success o text k (fun j hj => h j (le_of_lt hj))
  have he : o (k + text.length) = true := h text.length le_rfl
  simp only [execute_text, hs, he, if_true, ite_true]

theorem execute_text_true (k : Nat) (text : List Char) :
    execute_text (fun _ => true) k text =
      (true, k + text.length + 1,
       (text.map fun c => Event.call (DevOp.literal c)) ++
         [Event.call DevOp.enter]) :=
  execute_text_success _ _ _ (fun _ _ => rfl)

theorem execute_text_ok_imp (o : Nat → Bool) (k : Nat) (text : List Char)
    (h : (execute_text o k text).1 = true) :
    ∀ j, j ≤ text.length → o (k + j) = true := by
  by_cases h1 : (sendLiterals o k text).1 = true
  · obtain ⟨ha, hb⟩ := sendLiterals_ok o text k h1
    by_cases h2 : o ((sendLiterals o k text).2.1) = true
    · intro j hj
      rcases Nat.lt_or_ge j text.length with hlt | hge
      · exact ha j hlt
      · have hj2 : j = text.length := le_antisymm hj hge
        rw [hj2, ← hb]
        exact h2
    · rw [Bool.not_eq_true] at h2
      simp only [execute_text, h1, h2, if_true, ite_true, Bool.false_eq_true,
                 if_false, ite_false] at h
  · rw [Bool.not_eq_true] at h1
    simp only [execute_text, h1, Bool.false_eq_true, if_false, ite_false] at h

theorem execute_text_fail_msg (o : Nat → Bool) (k : Nat) (text : List Char)
    (h : (execute_text o k text).1 = false) :
    Event.msg (failedTextMsg text) ∈ (execute_text o k text).2.2 := by
  by_cases h1 : (sendLiterals o k text).1 = true
  · by_cases h2 : o ((sendLiterals o k text).2.1) = true
    · simp [execute_text, h1, h2] at h
    · rw [Bool.not_eq_true] at h2
      simp [execute_text, h1, h2]
  · rw [Bool.not_eq_true] at h1
    simp [execute_text, h1]

/-! ## The trace of one well-formed token, and the main loop lemma -/

/-- A token the interpreter handles without failing (used as the hypothesis
of the loop lemma): empty, a WAIT directive with a parseable non-negative
duration, a TEXT directive, or a known symbolic command. -/
def goodTok (slp : ℚ → SleepBeh) (t : List Char) : Prop :=
  t = [] ∨
  (startsWithL waitTag (upperL (stripL t)) = true ∧
   ∃ d, pyFloat (waitArg (stripL t)) = some d ∧ slp d = SleepBeh.returns) ∨
  (startsWithL waitTag (upperL (stripL t)) = false ∧
   startsWithL textTag (upperL (stripL t)) = true) ∨
  (startsWithL waitTag (upperL (stripL t)) = false ∧
   startsWithL textTag (upperL (stripL t)) = false ∧
   (scriptOp (stripL t)).isSome = true)

instance goodTok.instDecidable (slp : ℚ → SleepBeh) (t : List Char) :
    Decidable (goodTok slp t) := by
  have h1 : Decidable
      (∃ d, pyFloat (waitArg (stripL t)) = some d ∧ slp d = SleepBeh.returns) := by
    cases hp : pyFloat (waitArg (stripL t)) with
    | none => exact isFalse (by simp [hp])
    | some d => exact decidable_of_iff (slp d = SleepBeh.returns) (by simp [hp])
  unfold goodTok
  exact @instDecidableOr _ _ _ (@instDecidableOr _ _ (@instDecidableAnd _ _ _ h1) _)

/-- The events a single well-formed token contributes when every device call
succeeds and the WAIT sleeps return: nothing for an empty token, one sleep
for a WAIT directive, the literal keys plus one enter for a TEXT directive,
and one device call followed by the fixed 0.1-second stability pause for an
ordinary command. -/
def tokenTrace (slp : ℚ → SleepBeh) (t : List Char) : List Event :=
  if t = [] then []
  else if startsWithL waitTag (upperL (stripL t)) then
    match pyFloat (waitArg (stripL t)) with
    | some d =>
      match slp d with
      | SleepBeh.returns => [Event.sleep d]
      | _ => []
    | none => []
  else if startsWithL textTag (upperL (stripL t)) then
    (((stripL t).drop 5).map fun c => Event.call (DevOp.literal c)) ++
      [Event.call DevOp.enter]
  else
    match scriptOp (stripL t) with
    | some op => [Event.call op, Event.sleep (mkRat 1 10)]
    | none => []

/-- Processing well-formed tokens with an always-succeeding device and
returning sleeps prefixes their traces and continues with the remaining
tokens (at some later device call index). -/
theorem peGo_good_append (slp : ℚ → SleepBeh) (rest : List (List Char)) :
    ∀ (pre : List (List Char)) (k : Nat), (∀ t ∈ pre, goodTok slp t) →
    ∃ k2, peGo (fun _ => true) slp (pre ++ rest) k =
      ((peGo (fun _ => true) slp rest k2).1,
       pre.flatMap (tokenTrace slp) ++ (peGo (fun _ => true) slp rest k2).2) := by
  intro pre
  induction pre with
  | nil => exact fun k _ => ⟨k, by simp⟩
  | cons t pre ih =>
    intro k h
    have ht := h t (List.mem_cons_self _ _)
    have hrest : ∀ x ∈ pre, goodTok slp x :=
      fun x hx => h x (List.mem_cons_of_mem _ hx)
    rcases ht with h0 | ⟨hW, d, hd, hdn⟩ | ⟨hW, hX⟩ | ⟨hW, hX, hk⟩
    · obtain ⟨k2, ih2⟩ := ih k hrest
      refine ⟨k2, ?_⟩
      rw [List.cons_append, peGo_cons_empty _ _ _ _ _ h0, ih2]
      simp [tokenTrace, h0]
    · obtain ⟨k2, ih2⟩ := ih k hrest
      refine ⟨k2, ?_⟩
      have hne : t ≠ [] := by
        intro he
        rw [he] at hW
        exact absurd hW (by decide)
      rw [List.cons_append, peGo_cons_wait_ok _ _ _ _ _ _ hW hd hdn, ih2]
      have htt : tokenTrace slp t = [Event.sleep d] := by
        simp only [tokenTrace, hne, hW, hd, hdn, if_false, if_true, ite_true,
                   ite_false]
      rw [List.flatMap_cons, htt]
      simp
    · have hne : t ≠ [] := by
        intro he
        rw [he] at hX
        exact absurd hX (by decide)
      have het := execute_text_true k ((stripL t).drop 5)
      obtain ⟨k2, ih2⟩ := ih (k + ((stripL t).drop 5).length + 1) hrest
      refine ⟨k2, ?_⟩
      rw [List.cons_append, peGo_cons_text _ _ _ _ _ hW hX, het]
      simp only [if_true, ite_true]
      rw [ih2]
      have htt : tokenTrace slp t =
          ((((stripL t).drop 5).map fun c => Event.call (DevOp.literal c)) ++
            [Event.call DevOp.enter]) := by
        simp only [tokenTrace, hne, hW, hX, if_false, if_true, ite_true,
                   ite_false, Bool.false_eq_true]
      rw [List.flatMap_cons, htt]
      simp
    · have hne : t ≠ [] := by
        intro he
        rw [he] at hk
        exact absurd hk (by decide)
      obtain ⟨op, hop⟩ := Option.isSome_iff_exists.mp hk
      have hec := execute_command_known (fun _ => true) k (stripL t) op hop hW hX
      obtain ⟨k2, ih2⟩ := ih (k + 1) hrest
      refine ⟨k2, ?_⟩
      rw [List.cons_append, peGo_cons_ord _ _ _ _ _ hne hW hX, hec]
      simp only [if_true, ite_true]
      rw [ih2]
      have htt : tokenTrace slp t = [Event.call op, Event.sleep (mkRat 1 10)] := by
        simp only [tokenTrace, hne, hW, hX, hop, if_false, if_true, ite_true,
                   ite_false, Bool.false_eq_true]
      rw [List.flatMap_cons, htt]
      simp

theorem tokensOf_strip (s : List Char) : ∀ t ∈ tokensOf s, stripL t = t := by
  intro t ht
  obtain ⟨u, _, hu⟩ := List.mem_map.mp ht
  rw [← hu, stripL_idem]

theorem callsOf_append (a b : List Event) :
    callsOf (a ++ b) = callsOf a ++ callsOf b := by
  simp [callsOf, List.filterMap_append]

theorem msgsOf_append (a b : List Event) :
    msgsOf (a ++ b) = msgsOf a ++ msgsOf b := by
  simp [msgsOf, List.filterMap_append]

/-- In the all-known all-successful setting, the device calls of the trace
are exactly the table entries of the tokens, and no message is printed. -/
theorem flat_tokenTrace_known (slp : ℚ → SleepBeh) (toks : List (List Char))
    (hstrip : ∀ t ∈ toks, stripL t = t)
    (h : ∀ t ∈ toks, t ≠ [] → (scriptOp t).isSome = true) :
    callsOf (toks.flatMap (tokenTrace slp)) = toks.filterMap scriptOp ∧
    msgsOf (toks.flatMap (tokenTrace slp)) = [] := by
  induction toks with
  | nil => simp [callsOf, msgsOf]
  | cons t ts ih =>
    obtain ⟨ha, hb⟩ := ih (fun x hx => hstrip x (List.mem_cons_of_mem _ hx))
      (fun x hx => h x (List.mem_cons_of_mem _ hx))
    by_cases h0 : t = []
    · subst h0
      have htt : tokenTrace slp [] = [] := by simp [tokenTrace]
      have hsn : scriptOp ([] : List Char) = none := by decide
      rw [List.flatMap_cons, htt, List.nil_append, List.filterMap_cons, hsn]
      exact ⟨ha, hb⟩
    · have hk := h t (List.mem_cons_self _ _) h0
      have hs := hstrip t (List.mem_cons_self _ _)
      obtain ⟨op, hop⟩ := Option.isSome_iff_exists.mp hk
      have hWX := scriptOp_not_directive t hk
      have htt : tokenTrace slp t = [Event.call op, Event.sleep (mkRat 1 10)] := by
        simp only [tokenTrace, h0, hs, hWX.1, hWX.2, hop, if_false, if_true,
                   ite_true, ite_false, Bool.false_eq_true]
      rw [List.flatMap_cons, htt, List.filterMap_cons, hop]
      rw [callsOf_append, msgsOf_append, ha, hb]
      constructor
      · rfl
      · rfl

/-- C1: for every script string whose non-empty trimmed comma-separated
tokens are all known symbolic commands, and with every bound device
operation succeeding, the interpreter invokes exactly one device operation
per non-empty token, in exact left-to-right token order, skips empty tokens
with no effect, prints no error, and returns success (for any sleep
behavior: such a script never calls `time.sleep` with a parsed duration,
only with the program's own 0.1 constant). -/
theorem claim_C1 (oracle : Nat → Bool) (slp : ℚ → SleepBeh) (s : List Char)
    (hdev : ∀ n, oracle n = true)
    (h : ∀ t ∈ tokensOf s, t ≠ [] → (scriptOp t).isSome = true) :
    (parse_and_execute oracle slp s).1 = ScriptOut.ok true ∧
    callsOf (parse_and_execute oracle slp s).2 =
      (tokensOf s).filterMap scriptOp ∧
    msgsOf (parse_and_execute oracle slp s).2 = [] := by
  have ho : oracle = fun _ => true := funext hdev
  subst ho
  have hstrip := tokensOf_strip s
  have hgood : ∀ t ∈ tokensOf s, goodTok slp t := by
    intro t ht
    by_cases h0 : t = []
    · exact Or.inl h0
    · have hk := h t ht h0
      have hs := hstrip t ht
      have hWX := scriptOp_not_directive t hk
      rw [← hs] at hWX hk
      exact Or.inr (Or.inr (Or.inr ⟨hWX.1, hWX.2, hk⟩))
  obtain ⟨k2, hrun⟩ := peGo_good_append slp [] (tokensOf s) 0 hgood
  rw [List.append_nil] at hrun
  have hpe : parse_and_execute (fun _ => true) slp s =
      peGo (fun _ => true) slp (tokensOf s) 0 := rfl
  obtain ⟨hc, hm⟩ := flat_tokenTrace_known slp (tokensOf s) hstrip h
  rw [hpe, hrun]
  have hnil : peGo (fun _ => true) slp [] k2 = (ScriptOut.ok true, []) := rfl
  rw [hnil]
  simp only [List.append_nil]
  exact ⟨trivial, hc, hm⟩

theorem claim_C1_witness :
    (parse_and_execute (fun _ => true) slpStd "home, down,,UP".toList).1 =
      ScriptOut.ok true ∧
    callsOf (parse_and_execute (fun _ => true) slpStd
        "home, down,,UP".toList).2 =
      [DevOp.home, DevOp.down, DevOp.up] ∧
    msgsOf (parse_and_execute (fun _ => true) slpStd
        "home, down,,UP".toList).2 = [] := by
  have h := claim_C1 (fun _ => true) slpStd "home, down,,UP".toList
    (fun _ => rfl) (by decide)
  refine ⟨h.1, ?_, h.2.2⟩
  rw [h.2.1]
  decide

/-- C9 (amended): with every device operation succeeding and every reached
WAIT sleep returning, a script of well-formed tokens produces exactly the
concatenation of the per-token traces, in which the fixed 0.1-second pause
follows every successfully executed ordinary (non-WAIT, non-TEXT) command —
including the last one and ones followed by a directive — and never follows
a WAIT or TEXT directive (see `tokenTrace`). -/
theorem claim_C9_amended (oracle : Nat → Bool) (slp : ℚ → SleepBeh)
    (s : List Char) (hdev : ∀ n, oracle n = true)
    (h : ∀ t ∈ tokensOf s, goodTok slp t) :
    parse_and_execute oracle slp s =
      (ScriptOut.ok true, (tokensOf s).flatMap (tokenTrace slp)) := by
  have ho : oracle = fun _ => true := funext hdev
  subst ho
  obtain ⟨k2, hrun⟩ := peGo_good_append slp [] (tokensOf s) 0 h
  rw [List.append_nil] at hrun
  have hpe : parse_and_execute (fun _ => true) slp s =
      peGo (fun _ => true) slp (tokensOf s) 0 := rfl
  rw [hpe, hrun]
  have hnil : peGo (fun _ => true) slp [] k2 = (ScriptOut.ok true, []) := rfl
  rw [hnil]
  simp

theorem claim_C9_amended_witness :
    parse_and_execute (fun _ => true) slpStd "home,WAIT:2,TEXT:ab,up".toList =
      (ScriptOut.ok true,
       [Event.call DevOp.home, Event.sleep (mkRat 1 10),
        Event.sleep 2,
        Event.call (DevOp.literal 'a'), Event.call (DevOp.literal 'b'),
        Event.call DevOp.enter,
        Event.call DevOp.up, Event.sleep (mkRat 1 10)]) := by
  have h := claim_C9_amended (fun _ => true) slpStd
    "home,WAIT:2,TEXT:ab,up".toList (fun _ => rfl) (by decide)
  rw [h]
  decide

/-- C9 counterexample: the pause is not only "between two consecutive
ordinary commands" — a lone ordinary command is followed by the pause with
no second command after it, and the pause also occurs between an ordinary
command and a WAIT directive. -/
theorem claim_C9_counterexample :
    parse_and_execute (fun _ => true) slpStd "home".toList =
      (ScriptOut.ok true, [Event.call DevOp.home, Event.sleep (mkRat 1 10)]) ∧
    parse_and_execute (fun _ => true) slpStd "home,WAIT:2".toList =
      (ScriptOut.ok true, [Event.call DevOp.home, Event.sleep (mkRat 1 10),
              Event.sleep 2]) := by
  exact ⟨by decide, by decide⟩

/-- C4: a token that is neither a known symbolic command nor a WAIT or TEXT
directive makes the run execute everything before it (the earlier tokens
being well formed, in particular their WAIT sleeps returning), fail there
without executing anything after it, and script mode calls
`sys.exit(1)`; a fully successful script calls `sys.exit(0)`. -/
theorem claim_C4 (oracle : Nat → Bool) (slp : ℚ → SleepBeh) (s : List Char)
    (pre : List (List Char)) (bad : List Char) (post : List (List Char))
    (hdev : ∀ n, oracle n = true)
    (hsplit : tokensOf s = pre ++ bad :: post)
    (hpre : ∀ t ∈ pre, goodTok slp t)
    (hbad1 : bad ≠ []) (hbad2 : scriptOp bad = none)
    (hbad3 : startsWithL waitTag (upperL bad) = false)
    (hbad4 : startsWithL textTag (upperL bad) = false) :
    parse_and_execute oracle slp s =
      (ScriptOut.ok false, pre.flatMap (tokenTrace slp)) ∧
    scriptModeExit oracle slp s = some 1 ∧
    (∀ s2 : List Char, (parse_and_execute oracle slp s2).1 = ScriptOut.ok true →
      scriptModeExit oracle slp s2 = some 0) := by
  have ho : oracle = fun _ => true := funext hdev
  subst ho
  have hstrip := tokensOf_strip s
  have hbads : stripL bad = bad :=
    hstrip bad (hsplit ▸ List.mem_append_right _ (List.mem_cons_self _ _))
  obtain ⟨k2, hrun⟩ := peGo_good_append slp (bad :: post) pre 0 hpre
  have hpe : parse_and_execute (fun _ => true) slp s =
      peGo (fun _ => true) slp (tokensOf s) 0 := rfl
  have hbadrun : peGo (fun _ => true) slp (bad :: post) k2 =
      (ScriptOut.ok false, []) := by
    rw [peGo_cons_ord _ _ _ _ _ hbad1
        (by rw [hbads]; exact hbad3) (by rw [hbads]; exact hbad4)]
    rw [hbads, execute_command_unknown _ _ _ hbad2 hbad3 hbad4]
    simp
  have hmain : parse_and_execute (fun _ => true) slp s =
      (ScriptOut.ok false, pre.flatMap (tokenTrace slp)) := by
    rw [hpe, hsplit, hrun, hbadrun]
    simp
  refine ⟨hmain, ?_, ?_⟩
  · unfold scriptModeExit
    rw [hmain]
  · intro s2 h2
    unfold scriptModeExit
    rw [h2]

theorem claim_C4_witness :
    parse_and_execute (fun _ => true) slpStd "home,down,unknowncmd,up".toList =
      (ScriptOut.ok false,
       [Event.call DevOp.home, Event.sleep (mkRat 1 10),
        Event.call DevOp.down, Event.sleep (mkRat 1 10)]) ∧
    scriptModeExit (fun _ => true) slpStd "home,down,unknowncmd,up".toList =
      some 1 := by
  have h := claim_C4 (fun _ => true) slpStd "home,down,unknowncmd,up".toList
    ["home".toList, "down".toList] "unknowncmd".toList ["up".toList]
    (fun _ => rfl) (by decide) (by decide) (by decide) (by decide) (by decide)
    (by decide)
  refine ⟨?_, h.2.1⟩
  rw [h.1]
  decide

/-- C2 (amended): for a token that case-insensitively begins with `WAIT:`,
the stream between the token's first and second colons — `cmd.split(':')[1]`,
which is the whole remainder only when the remainder has no further colon —
is handed to `float` and then `time.sleep`, under `except ValueError`.  If
the parse fails, or the sleep raises `ValueError` (every ordinary negative
duration), the interpreter prints the invalid-wait message and returns
failure, with no device call for that token and no later token executed;
if the sleep returns (non-negative in-range durations), execution suspends
and continues with the next token, again with no device call for that
token; if the sleep raises anything else (`OverflowError`, for durations
beyond the 64-bit nanosecond range, including literals that saturate to
infinity), nothing catches it and the run dies with a traceback: no
message, no device call, no later token. -/
theorem claim_C2_amended (oracle : Nat → Bool) (slp : ℚ → SleepBeh)
    (t : List Char) (ts : List (List Char)) (k : Nat)
    (hW : startsWithL waitTag (upperL (stripL t)) = true) :
    (pyFloat (waitArg (stripL t)) = none →
      peGo oracle slp (t :: ts) k =
        (ScriptOut.ok false, [Event.msg (invalidWaitMsg (stripL t))])) ∧
    (∀ d, pyFloat (waitArg (stripL t)) = some d →
      slp d = SleepBeh.valueError →
      peGo oracle slp (t :: ts) k =
        (ScriptOut.ok false, [Event.msg (invalidWaitMsg (stripL t))])) ∧
    (∀ d, pyFloat (waitArg (stripL t)) = some d → slp d = SleepBeh.returns →
      peGo oracle slp (t :: ts) k =
        ((peGo oracle slp ts k).1,
         Event.sleep d :: (peGo oracle slp ts k).2)) ∧
    (∀ d, pyFloat (waitArg (stripL t)) = some d → slp d = SleepBeh.uncaught →
      peGo oracle slp (t :: ts) k = (ScriptOut.crash, [])) := by
  refine ⟨?_, ?_, ?_, ?_⟩
  · intro hd
    exact peGo_cons_wait_none oracle slp t ts k hW hd
  · intro d hd hv
    exact peGo_cons_wait_valueerror oracle slp t ts k d hW hd hv
  · intro d hd hr
    exact peGo_cons_wait_ok oracle slp t ts k d hW hd hr
  · intro d hd hu
    exact peGo_cons_wait_uncaught oracle slp t ts k d hW hd hu

theorem claim_C2_amended_witness :
    peGo (fun _ => true) slpStd ["WAIT:abc".toList, "home".toList] 0 =
      (ScriptOut.ok false, [Event.msg (invalidWaitMsg "WAIT:abc".toList)]) ∧
    peGo (fun _ => true) slpStd ["WAIT:-1".toList, "home".toList] 0 =
      (ScriptOut.ok false, [Event.msg (invalidWaitMsg "WAIT:-1".toList)]) ∧
    peGo (fun _ => true) slpStd ["wait:0.5".toList, "home".toList] 0 =
      (ScriptOut.ok true, [Event.sleep (mkRat 1 2), Event.call DevOp.home,
              Event.sleep (mkRat 1 10)]) ∧
    peGo (fun _ => true) slpStd ["WAIT:9999999999".toList, "home".toList] 0 =
      (ScriptOut.crash, []) := by
  refine ⟨?_, ?_, ?_, ?_⟩
  · exact (claim_C2_amended (fun _ => true) slpStd "WAIT:abc".toList
      ["home".toList] 0 (by decide)).1 (by decide)
  · exact (claim_C2_amended (fun _ => true) slpStd "WAIT:-1".toList
      ["home".toList] 0 (by decide)).2.1 (mkRat (-1) 1) (by decide) (by decide)
  · have h := (claim_C2_amended (fun _ => true) slpStd "wait:0.5".toList
      ["home".toList] 0 (by decide)).2.2.1 (mkRat 1 2) (by decide) (by decide)
    rw [h]
    decide
  · exact (claim_C2_amended (fun _ => true) slpStd "WAIT:9999999999".toList
      ["home".toList] 0 (by decide)).2.2.2 9999999999 (by decide) (by decide)

/-- C2 counterexample: the claim says the whole remainder after `WAIT:` is
parsed, and that a remainder that fails to parse as a float is reported as
an invalid command and fails the run with no further tokens executed.  For
the token `WAIT:1:5` the remainder `1:5` is no float, yet the code parses
only `cmd.split(':')[1]` (the `1`), sleeps one second, succeeds, and runs
the following token. -/
theorem claim_C2_counterexample :
    pyFloat ("WAIT:1:5".toList.drop 5) = none ∧
    parse_and_execute (fun _ => true) slpStd "WAIT:1:5,home".toList =
      (ScriptOut.ok true, [Event.sleep 1, Event.call DevOp.home,
              Event.sleep (mkRat 1 10)]) := by
  exact ⟨by decide, by decide⟩

/-- C3: for a token that case-insensitively begins with `TEXT:`, the
remainder with its original case (`cmd[5:]`, never lower-cased) is sent as
one literal-character call per character, in order, followed by exactly one
enter call, after which the run continues; if any of those sends fails, the
interpreter returns failure with the text-input failure message printed and
no later token executed.  The third conjunct makes the failure case
exhaustive: a successful `execute_text` means every send succeeded. -/
theorem claim_C3 (oracle : Nat → Bool) (slp : ℚ → SleepBeh) (t : List Char)
    (ts : List (List Char)) (k : Nat)
    (hW : startsWithL waitTag (upperL (stripL t)) = false)
    (hX : startsWithL textTag (upperL (stripL t)) = true) :
    ((∀ j, j ≤ ((stripL t).drop 5).length → oracle (k + j) = true) →
      peGo oracle slp (t :: ts) k =
        ((peGo oracle slp ts (k + ((stripL t).drop 5).length + 1)).1,
         ((((stripL t).drop 5).map fun c => Event.call (DevOp.literal c)) ++
            [Event.call DevOp.enter]) ++
           (peGo oracle slp ts (k + ((stripL t).drop 5).length + 1)).2)) ∧
    ((execute_text oracle k ((stripL t).drop 5)).1 = false →
      peGo oracle slp (t :: ts) k =
        (ScriptOut.ok false, (execute_text oracle k ((stripL t).drop 5)).2.2) ∧
      Event.msg (failedTextMsg ((stripL t).drop 5)) ∈
        (execute_text oracle k ((stripL t).drop 5)).2.2) ∧
    ((execute_text oracle k ((stripL t).drop 5)).1 = true →
      ∀ j, j ≤ ((stripL t).drop 5).length → oracle (k + j) = true) := by
  refine ⟨?_, ?_, ?_⟩
  · intro h
    have hs := execute_text_success oracle k ((stripL t).drop 5) h
    rw [peGo_cons_text oracle slp t ts k hW hX, hs]
    simp
  · intro h
    constructor
    · rw [peGo_cons_text oracle slp t ts k hW hX]
      rw [h]
      simp
    · exact execute_text_fail_msg oracle k _ h
  · exact execute_text_ok_imp oracle k _

theorem claim_C3_witness :
    peGo (fun _ => true) slpStd ["tExT:Hi".toList, "up".toList] 0 =
      (ScriptOut.ok true,
       [Event.call (DevOp.literal 'H'), Event.call (DevOp.literal 'i'),
        Event.call DevOp.enter, Event.call DevOp.up,
        Event.sleep (mkRat 1 10)]) ∧
    peGo (fun n => n ≠ 0) slpStd ["TEXT:Hi".toList, "up".toList] 0 =
      (ScriptOut.ok false, [Event.call (DevOp.literal 'H'),
               Event.msg (failedTextMsg "Hi".toList)]) := by
  constructor
  · have h := (claim_C3 (fun _ => true) slpStd "tExT:Hi".toList ["up".toList] 0
      (by decide) (by decide)).1 (fun _ _ => rfl)
    rw [h]
    decide
  · have h := ((claim_C3 (fun n => n ≠ 0) slpStd "TEXT:Hi".toList
      ["up".toList] 0 (by decide) (by decide)).2.1 (by decide)).1
    rw [h]
    decide

/-! ## Interactive-mode claims -/

/-- C5 counterexample: the quit check is the `while` condition, evaluated
only after the current key has been dispatched, so with a key-binding table
that does bind `'q'` the bound operation is invoked before the loop
terminates.  The claim's "no device operation is invoked ... regardless of
the contents of the active key-binding table, because the quit check
happens before table lookup" is therefore false of the code. -/
theorem claim_C5_counterexample :
    iRun (fun _ => true) "host".toList "8060".toList
        [(['q'], IAct.op DevOp.home)] 0 IMode.top 0 [Key.ch 'q'] =
      ([Event.call DevOp.home], ILOut.quit) := by decide

/-- C5 (amended): with the two tables the program actually constructs
(default and TV variant), pressing `q` or `Q` terminates the loop and
invokes no device operation for that key — because neither table binds
`'q'` or `'Q'`; the quit check itself runs only after the current key's
dispatch, so the non-invocation rests on the keys being unbound, not on the
check preceding lookup. -/
theorem claim_C5_amended (is_tv : Bool) (oracle : Nat → Bool)
    (host port : List Char) (sc k : Nat) (keys : List Key) :
    iRun oracle host port (interactive_map is_tv) sc IMode.top k
        (Key.ch 'q' :: keys) = ([], ILOut.quit) ∧
    iRun oracle host port (interactive_map is_tv) sc IMode.top k
        (Key.ch 'Q' :: keys) = ([], ILOut.quit) := by
  cases is_tv <;> exact ⟨rfl, rfl⟩

theorem callsOf_nil : callsOf [] = [] := rfl

theorem callsOf_cons_call (o : DevOp) (l : List Event) :
    callsOf (Event.call o :: l) = o :: callsOf l := rfl

theorem callsOf_cons_msg (s : List Char) (l : List Event) :
    callsOf (Event.msg s :: l) = callsOf l := rfl

theorem callsOf_cons_echo (s : List Char) (l : List Event) :
    callsOf (Event.echo s :: l) = callsOf l := rfl

/-- Each key event contributes at most one device-call attempt to the
interactive trace, in any mode, with any table. -/
theorem iRun_calls_le (oracle : Nat → Bool) (host port : List Char)
    (tbl : List (List Char × IAct)) (sc : Nat) :
    ∀ (ks : List Key) (mode : IMode) (k : Nat),
      (callsOf (iRun oracle host port tbl sc mode k ks).1).length ≤ ks.length := by
  intro ks
  induction ks with
  | nil =>
    intro mode k
    cases mode <;> simp [iRun, callsOf]
  | cons key rest ih =>
    intro mode k
    cases mode with
    | top =>
      simp only [iRun]
      cases hlk : lookupA tbl (normKey key) with
      | none =>
        by_cases hq : lowerL (normKey key) = ['q'] <;>
          simp only [hq, if_true, ite_true, if_false, ite_false, callsOf_nil]
        · simp
        · exact le_trans (ih IMode.top k) (Nat.le_succ _)
      | some act =>
        cases act with
        | op o =>
          by_cases ho : oracle k = true <;>
            simp only [ho, if_true, ite_true, Bool.false_eq_true, if_false,
                       ite_false]
          · by_cases hq : lowerL (normKey key) = ['q'] <;>
              simp only [hq, if_true, ite_true, if_false, ite_false]
            · simp [callsOf]
            · rw [callsOf_cons_call, List.length_cons, List.length_cons]
              exact Nat.succ_le_succ (ih IMode.top (k + 1))
          · simp [callsOf]
        | textMode =>
          exact le_trans (ih _ k) (Nat.le_succ _)
    | text scol col qa =>
      cases key with
      | ch c =>
        simp only [iRun]
        by_cases ho : oracle k = true <;>
          simp only [ho, if_true, ite_true, Bool.false_eq_true, if_false,
                     ite_false]
        · rw [callsOf_cons_call, callsOf_cons_echo, List.length_cons,
              List.length_cons]
          exact Nat.succ_le_succ (ih _ (k + 1))
        · simp [callsOf]
      | seq n =>
        simp only [iRun]
        by_cases hmem : n ∈ allowedSeqs
        case neg =>
          simp only [hmem, if_false, ite_false]
          exact le_trans (ih _ k) (Nat.le_succ _)
        case pos =>
          simp only [hmem, if_true, ite_true]
          by_cases hent : n = "KEY_ENTER".toList
          · simp only [hent, if_true, ite_true]
            by_cases ho : oracle k = true <;>
              simp only [ho, if_true, ite_true, Bool.false_eq_true, if_false,
                         ite_false]
            · by_cases hq : qa <;>
                simp only [hq, if_true, ite_true, if_false, ite_false]
              · simp [callsOf]
              · rw [callsOf_cons_call, List.length_cons, List.length_cons]
                exact Nat.succ_le_succ (ih IMode.top (k + 1))
            · simp [callsOf]
          · simp only [hent, if_false, ite_false]
            by_cases hesc : n = "KEY_ESCAPE".toList
            · simp only [hesc, if_true, ite_true]
              by_cases hq : qa <;>
                simp only [hq, if_true, ite_true, if_false, ite_false]
              · simp [callsOf]
              · exact le_trans (ih IMode.top k) (Nat.le_succ _)
            · simp only [hesc, if_false, ite_false]
              by_cases ho : oracle k = true <;>
                simp only [ho, if_true, ite_true, Bool.false_eq_true, if_false,
                           ite_false]
              · by_cases hcol : scol < col <;>
                  simp only [hcol, if_true, ite_true, if_false, ite_false]
                · rw [callsOf_cons_call, callsOf_cons_echo, List.length_cons,
                      List.length_cons]
                  exact Nat.succ_le_succ (ih _ (k + 1))
                · rw [callsOf_cons_call, List.length_cons, List.length_cons]
                  exact Nat.succ_le_succ (ih _ (k + 1))
              · simp [callsOf]

/-- C6: in interactive mode, when a bound device operation raises, the
program prints the connectivity error naming the device's host and port and
exits the whole process with status 1; the resulting trace holds exactly
one call attempt for that key (no retry), and in general every key event
contributes at most one device-call attempt. -/
theorem claim_C6 (is_tv : Bool) (oracle : Nat → Bool) (host port : List Char)
    (sc k : Nat) (key : Key) (keys : List Key) (o : DevOp)
    (hb : lookupA (interactive_map is_tv) (normKey key) = some (IAct.op o))
    (hf : oracle k = false) :
    iRun oracle host port (interactive_map is_tv) sc IMode.top k (key :: keys) =
      ([Event.call o, Event.msg (connMsg host port)], ILOut.exited 1) ∧
    (∀ (tbl : List (List Char × IAct)) (mode : IMode) (k2 : Nat) (ks : List Key),
      (callsOf (iRun oracle host port tbl sc mode k2 ks).1).length ≤
        ks.length) := by
  constructor
  · simp only [iRun, hb, hf, Bool.false_eq_true, if_false, ite_false]
  · intro tbl mode k2 ks
    exact iRun_calls_le oracle host port tbl sc ks mode k2

theorem claim_C6_witness :
    iRun (fun _ => false) "192.168.1.5".toList "8060".toList
        (interactive_map false) 0 IMode.top 0 [Key.ch 'H', Key.ch 'j'] =
      ([Event.call DevOp.home,
        Event.msg (connMsg "192.168.1.5".toList "8060".toList)],
       ILOut.exited 1) :=
  (claim_C6 false (fun _ => false) "192.168.1.5".toList "8060".toList 0 0
    (Key.ch 'H') [Key.ch 'j'] DevOp.home (by decide) rfl).1

/-- C7: in the text-entry sub-mode, every press of the delete/backspace key
sends the device's backspace operation; the visual erasure (`'\b \b'`) and
the column decrement happen exactly when the current column is strictly
right of the recorded starting column, and when the columns are equal the
backspace operation is still sent with no visual effect.  (A raising
backspace call propagates out, as the third conjunct shows.) -/
theorem claim_C7 (oracle : Nat → Bool) (host port : List Char)
    (tbl : List (List Char × IAct)) (sc scol col : Nat) (qa : Bool) (k : Nat)
    (rest : List Key) (nm : List Char)
    (hnm : nm = "KEY_DELETE".toList ∨ nm = "KEY_BACKSPACE".toList) :
    (oracle k = true → scol < col →
      iRun oracle host port tbl sc (IMode.text scol col qa) k
          (Key.seq nm :: rest) =
        (Event.call DevOp.backspace :: Event.echo bsEcho ::
           (iRun oracle host port tbl sc (IMode.text scol (col - 1) qa) (k + 1)
             rest).1,
         (iRun oracle host port tbl sc (IMode.text scol (col - 1) qa) (k + 1)
           rest).2)) ∧
    (oracle k = true → ¬scol < col →
      iRun oracle host port tbl sc (IMode.text scol col qa) k
          (Key.seq nm :: rest) =
        (Event.call DevOp.backspace ::
           (iRun oracle host port tbl sc (IMode.text scol col qa) (k + 1)
             rest).1,
         (iRun oracle host port tbl sc (IMode.text scol col qa) (k + 1)
           rest).2)) ∧
    (oracle k = false →
      iRun oracle host port tbl sc (IMode.text scol col qa) k
          (Key.seq nm :: rest) =
        ([Event.call DevOp.backspace, Event.msg (connMsg host port)],
         ILOut.exited 1)) := by
  rcases hnm with h | h <;> subst h <;>
      refine ⟨fun ho hlt => ?_, fun ho hlt => ?_, fun ho => ?_⟩
  · simp [iRun, ho, hlt, allowedSeqs]
  · simp [iRun, ho, hlt, allowedSeqs]
  · simp [iRun, ho, allowedSeqs]
  · simp [iRun, ho, hlt, allowedSeqs]
  · simp [iRun, ho, hlt, allowedSeqs]
  · simp [iRun, ho, allowedSeqs]

theorem claim_C7_witness :
    iRun (fun _ => true) "h".toList "p".toList (interactive_map false) 0
        (IMode.text 2 3 false) 5 [Key.seq "KEY_BACKSPACE".toList] =
      (Event.call DevOp.backspace :: Event.echo bsEcho ::
         (iRun (fun _ => true) "h".toList "p".toList (interactive_map false) 0
           (IMode.text 2 2 false) 6 []).1,
       (iRun (fun _ => true) "h".toList "p".toList (interactive_map false) 0
         (IMode.text 2 2 false) 6 []).2) ∧
    iRun (fun _ => true) "h".toList "p".toList (interactive_map false) 0
        (IMode.text 2 2 false) 5 [Key.seq "KEY_DELETE".toList] =
      (Event.call DevOp.backspace ::
         (iRun (fun _ => true) "h".toList "p".toList (interactive_map false) 0
           (IMode.text 2 2 false) 6 []).1,
       (iRun (fun _ => true) "h".toList "p".toList (interactive_map false) 0
         (IMode.text 2 2 false) 6 []).2) := by
  constructor
  · exact (claim_C7 (fun _ => true) "h".toList "p".toList
      (interactive_map false) 0 2 3 false 5 [] "KEY_BACKSPACE".toList
      (Or.inr rfl)).1 rfl (by omega)
  · exact (claim_C7 (fun _ => true) "h".toList "p".toList
      (interactive_map false) 0 2 2 false 5 [] "KEY_DELETE".toList
      (Or.inl rfl)).2.1 rfl (by omega)

/-- C8: the interactive table is the one value `interactive_map is_tv`
selected from the device-type flag (never mutated afterwards in the model —
it is pure data): `V`/`v`/`M` are bound only in the TV variant, so on a
non-TV device pressing `V` invokes no device operation and the loop simply
continues, while on a TV device pressing `V` invokes volume-up. -/
theorem claim_C8 (oracle : Nat → Bool) (host port : List Char) (sc k : Nat)
    (keys : List Key) (hk : oracle k = true) :
    lookupA (interactive_map false) (normKey (Key.ch 'V')) = none ∧
    lookupA (interactive_map false) (normKey (Key.ch 'v')) = none ∧
    lookupA (interactive_map false) (normKey (Key.ch 'M')) = none ∧
    lookupA (interactive_map true) (normKey (Key.ch 'V')) =
      some (IAct.op DevOp.volumeUp) ∧
    lookupA (interactive_map true) (normKey (Key.ch 'v')) =
      some (IAct.op DevOp.volumeDown) ∧
    lookupA (interactive_map true) (normKey (Key.ch 'M')) =
      some (IAct.op DevOp.volumeMute) ∧
    iRun oracle host port (interactive_map false) sc IMode.top k
        (Key.ch 'V' :: keys) =
      iRun oracle host port (interactive_map false) sc IMode.top k keys ∧
    iRun oracle host port (interactive_map true) sc IMode.top k
        (Key.ch 'V' :: keys) =
      (Event.call DevOp.volumeUp ::
         (iRun oracle host port (interactive_map true) sc IMode.top (k + 1)
           keys).1,
       (iRun oracle host port (interactive_map true) sc IMode.top (k + 1)
         keys).2) := by
  refine ⟨by decide, by decide, by decide, by decide, by decide, by decide,
          rfl, ?_⟩
  simp only [iRun]
  rw [show lookupA (interactive_map true) (normKey (Key.ch 'V')) =
      some (IAct.op DevOp.volumeUp) from by decide]
  rw [hk]
  simp only [if_true, ite_true]
  rw [if_neg (by decide : ¬lowerL (normKey (Key.ch 'V')) = ['q'])]

theorem claim_C8_witness :
    iRun (fun _ => true) "h".toList "p".toList (interactive_map false) 0
        IMode.top 0 [Key.ch 'V'] =
      iRun (fun _ => true) "h".toList "p".toList (interactive_map false) 0
        IMode.top 0 [] ∧
    iRun (fun _ => true) "h".toList "p".toList (interactive_map true) 0
        IMode.top 0 [Key.ch 'V'] =
      (Event.call DevOp.volumeUp ::
         (iRun (fun _ => true) "h".toList "p".toList (interactive_map true) 0
           IMode.top 1 []).1,
       (iRun (fun _ => true) "h".toList "p".toList (interactive_map true) 0
         IMode.top 1 []).2) := by
  have h := claim_C8 (fun _ => true) "h".toList "p".toList 0 0 [] rfl
  exact ⟨h.2.2.2.2.2.2.1, h.2.2.2.2.2.2.2⟩

/-- C10 (implicit): `text_entry` has no local exception handling, so a
device failure while sending a literal character, a backspace, or the enter
during the sub-mode reaches the interactive loop's `except:` handler, which
prints the connectivity message and exits the process with status 1 —
whereas the same send failure inside a script-mode TEXT directive is caught
locally by `execute_text` and reported as a recoverable text-input failure
(last conjunct).  The first conjunct shows `'/'` entering the sub-mode. -/
theorem claim_C10 (is_tv : Bool) (oracle : Nat → Bool) (host port : List Char)
    (sc scol col : Nat) (qa : Bool) (k : Nat) (rest : List Key) (c : Char)
    (text : List Char) (hf : oracle k = false) :
    (iRun oracle host port (interactive_map is_tv) sc IMode.top k
        (Key.ch '/' :: rest) =
      iRun oracle host port (interactive_map is_tv) sc (IMode.text sc sc false)
        k rest) ∧
    (iRun oracle host port (interactive_map is_tv) sc (IMode.text scol col qa)
        k (Key.ch c :: rest) =
      ([Event.call (DevOp.literal c), Event.msg (connMsg host port)],
       ILOut.exited 1)) ∧
    (iRun oracle host port (interactive_map is_tv) sc (IMode.text scol col qa)
        k (Key.seq "KEY_BACKSPACE".toList :: rest) =
      ([Event.call DevOp.backspace, Event.msg (connMsg host port)],
       ILOut.exited 1)) ∧
    (iRun oracle host port (interactive_map is_tv) sc (IMode.text scol col qa)
        k (Key.seq "KEY_ENTER".toList :: rest) =
      ([Event.call DevOp.enter, Event.msg (connMsg host port)],
       ILOut.exited 1)) ∧
    ((execute_text oracle k text).1 = false →
      Event.msg (failedTextMsg text) ∈ (execute_text oracle k text).2.2) := by
  refine ⟨?_, ?_, ?_, ?_, ?_⟩
  · cases is_tv <;> rfl
  · simp [iRun, hf]
  · simp [iRun, hf, allowedSeqs]
  · simp [iRun, hf, allowedSeqs]
  · exact execute_text_fail_msg oracle k text

theorem claim_C10_witness :
    iRun (fun _ => false) "host".toList "8060".toList (interactive_map false)
        4 IMode.top 0 [Key.ch '/', Key.ch 'a'] =
      ([Event.call (DevOp.literal 'a'),
        Event.msg (connMsg "host".toList "8060".toList)], ILOut.exited 1) ∧
    (execute_text (fun _ => false) 0 "a".toList).1 = false ∧
    Event.msg (failedTextMsg "a".toList) ∈
      (execute_text (fun _ => false) 0 "a".toList).2.2 := by
  have h := claim_C10 false (fun _ => false) "host".toList "8060".toList
    4 4 4 false 0 [Key.ch 'a'] 'a' "a".toList rfl
  refine ⟨?_, by decide, h.2.2.2.2 (by decide)⟩
  rw [h.1]
  exact (claim_C10 false (fun _ => false) "host".toList "8060".toList
    4 4 4 false 0 [] 'a' "a".toList rfl).2.1
